import Mathlib

/-!
Verification of the status-log relay and plugin-dispatch core of
`osquery/logger/logger.cpp` (the buffered Glog sink, the relay scheduler,
the intermediate-log codec and the logger-plugin dispatch protocol).

Each definition is a shallow embedding of the corresponding C++ function of
the source file; definitions that model collaborators living outside the
given source (the registry, the `Status` value type, flag defaults, the
`split` helper, the boost property-tree JSON reader/writer) carry a doc
comment saying so.
-/

set_option autoImplicit false

/-- Result value returned by logger entry points.  Modelled from the spec:
`osquery::Status` (core/status.h is not part of the given source) is a
"result code/message pair"; a zero code means success.  The no-message
constructor `Status(code)` leaves the default message, written `"OK"` here;
no claim depends on that default text. -/
structure Status where
  code : Int
  message : String
deriving DecidableEq, Repr

/-- One buffered status-log record (`struct StatusLogLine`).  The severity
is the integer value of the `StatusLogSeverity` enum (the source casts it
to and from `int`), `line` is a C `int`, and `time` a `size_t`. -/
structure StatusLogLine where
  severity : Int
  filename : String
  line : Int
  message : String
  calendar_time : String
  time : Nat
deriving DecidableEq, Repr

/-- Modelled from the spec: `O_INFO`, the `StatusLogSeverity` value used as
the decode default (`logger.h` is not part of the given source); it is the
zero severity, matching Glog's `INFO` level. -/
def O_INFO : Int := 0

/-- A `PluginRequest` / `PluginResponse` entry map: string keys to string
values, keys unique.  Modelled as an association list with first-match
lookup; the source's `std::map` operations used here are `count`, `at` and
`operator[]` assignment. -/
abbrev PluginRequest := List (String × String)

/-- Lookup of a key in a request map (`request.count` / `request.at`). -/
def lookupReq : PluginRequest → String → Option String
  | [], _ => none
  | (k, v) :: rest, key => if k = key then some v else lookupReq rest key

/-- Whether a key is present (`request.count(key) > 0`). -/
def hasKey (req : PluginRequest) (key : String) : Bool :=
  (lookupReq req key).isSome

/-- The value at a key (`request.at(key)`; callers only use it under a
`count` guard, so the default is never observed). -/
def reqAt (req : PluginRequest) (key : String) : String :=
  (lookupReq req key).getD ""

/-- Assignment `request[key] = value` of `std::map::operator[]`: replaces
the binding if the key exists, appends it otherwise. -/
def insertReq : PluginRequest → String → String → PluginRequest
  | [], key, val => [(key, val)]
  | (k, v) :: rest, key, val =>
    if k = key then (k, val) :: rest else (k, v) :: insertReq rest key val

/-! ## BufferedLogSink primary-logger election

`BufferedLogSink::setPrimary` and `BufferedLogSink::isPrimaryLogger`
(logger.cpp lines 170-183).  The state is the `primary_` string, initially
empty; both operations hold `primary_mutex_`, so they are modelled as pure
functions of that string. -/

/-- `BufferedLogSink::setPrimary(plugin)`: writes `primary_` only when it
is currently empty (`if (self.primary_.empty()) self.primary_ = plugin`). -/
def setPrimary (plugin : String) (primary : String) : String :=
  if primary = "" then plugin else primary

/-- `BufferedLogSink::isPrimaryLogger(plugin)`: true when `primary_` is
empty (no election yet) or equals `plugin`. -/
def isPrimaryLogger (plugin : String) (primary : String) : Bool :=
  primary = "" || plugin = primary

/-! ## BufferedLogSink enable/disable/setUp state machine

`BufferedLogSink::setUp`, `disable`, `enable` (logger.cpp lines 404-438).
All three hold `enable_mutex_`, so a call sequence is modelled as a fold of
pure steps over the `(active_, enabled_)` pair.  Attaching to and
detaching from Glog (`google::AddLogSink` / `RemoveLogSink`) coincides
with the `active_` flag transitions. -/

/-- The `(active_, enabled_)` flags of the singleton sink. -/
structure SinkFlags where
  active : Bool
  enabled : Bool
deriving DecidableEq, Repr

/-- The constructor state: `BufferedLogSink() : enabled_(false)` with
`active_{false}`. -/
def initSinkFlags : SinkFlags := ⟨false, false⟩

/-- `BufferedLogSink::setUp`: if not active, attach and set `active_`. -/
def setUpStep (s : SinkFlags) : SinkFlags :=
  if s.active then s else { s with active := true }

/-- `BufferedLogSink::disable`: only when enabled, clear `enabled_` and,
if active, detach and clear `active_`. -/
def disableStep (s : SinkFlags) : SinkFlags :=
  if s.enabled then
    if s.active then ⟨false, false⟩ else { s with enabled := false }
  else s

/-- `BufferedLogSink::enable`: only when not enabled, set `enabled_` and,
if not active, attach and set `active_`. -/
def enableStep (s : SinkFlags) : SinkFlags :=
  if s.enabled then s
  else if s.active then { s with enabled := true } else ⟨true, true⟩

/-- One call of the setUp/enable/disable API. -/
inductive SinkOp where
  | setUp
  | enable
  | disable
deriving DecidableEq, Repr

/-- Apply one API call to the flag state. -/
def sinkStep (s : SinkFlags) : SinkOp → SinkFlags
  | .setUp => setUpStep s
  | .enable => enableStep s
  | .disable => disableStep s

/-- Run a call sequence from the constructor state. -/
def runSink (ops : List SinkOp) : SinkFlags :=
  ops.foldl sinkStep initSinkFlags

/-! ## The async sender queue (`WaitTillSent`)

`BufferedLogSink::WaitTillSent` (logger.cpp lines 465-484).  The member
`senders` is a `std::queue<std::future<void>>`; `relayStatusLogs` pushes
new futures at the back.  The queue is modelled as a list whose head is
the queue front (the oldest pending drain task).  `WaitTillSent` does,
under `kBufferedLogSinkSenders`:

  first = std::move(self.senders.back());   // the NEWEST element
  self.senders.pop();                       // removes the FRONT

and then waits on `first` (`wait()`, or `wait_for(100us)` on Windows).
So the element removed from the queue is the oldest, but the future
waited on is the newest; when the queue holds at least two tasks the
newest future also stays in the queue in a moved-from state. -/

/-- Result of one `WaitTillSent` call on a queue of task handles (head =
front = oldest): the handle waited on (`senders.back()`), and the queue
contents afterwards (`senders.pop()` removes the front; the back slot
remains, moved-from). -/
def waitTillSentModel (senders : List String) : Option String × List String :=
  match senders with
  | [] => (none, [])
  | _ :: rest => (senders.getLast?, rest)

/-! ## Buffer append and drain (`send` / `relayStatusLogs`)

`BufferedLogSink::send` appends one record to `logs_` under
`kBufferedLogSinkLogs` (lines 449-457); the `relayStatusLogs` sender
snapshots and clears `logs_` under the same lock (lines 609-619), after an
early return when the buffer is empty (lines 598-603).  Because append and
snapshot-and-clear share the one exclusive lock, an interleaving is
modelled as a sequence of atomic events folded over the state
`(buffer, batches drained so far)`. -/

/-- One buffer event: a `send` append or one drain. -/
inductive LogEvent where
  | record (r : StatusLogLine)
  | drain
deriving DecidableEq, Repr

/-- Fold one event over `(logs_, delivered batches)`:  `record` appends
under the lock; `drain` returns early on an empty buffer, otherwise
snapshots the whole buffer as one batch and clears it. -/
def logStep (s : List StatusLogLine × List (List StatusLogLine)) :
    LogEvent → List StatusLogLine × List (List StatusLogLine)
  | .record r => (s.1 ++ [r], s.2)
  | .drain => if s.1.isEmpty then s else ([], s.2 ++ [s.1])

/-- Run an event sequence from the empty buffer with no drains yet. -/
def runLog (evs : List LogEvent) :
    List StatusLogLine × List (List StatusLogLine) :=
  evs.foldl logStep ([], [])

/-- The records appended by a sequence of events, in order. -/
def appendedRecords (evs : List LogEvent) : List StatusLogLine :=
  evs.filterMap (fun e => match e with
    | .record r => some r
    | .drain => none)

/-! ## Relay delivery targets (`relayStatusLogs` sender loop)

The sender loop (logger.cpp lines 621-629) iterates the comma-separated
active logger list and, for each name found in the forwarding list
(`BufferedLogSink::enabledPlugins()`), issues
`Registry::call("logger", request, response)` — the overload *without* an
item name. -/

/-- Split at commas: the accumulator holds the current token reversed. -/
def splitCommaAux : List Char → List Char → List String
  | [], acc => [String.mk acc.reverse]
  | c :: rest, acc =>
    if c = ',' then String.mk acc.reverse :: splitCommaAux rest []
    else splitCommaAux rest (c :: acc)

/-- Modelled from the spec: `osquery::split(s, ",")`
(core/conversions.cpp is not part of the given source); the spec describes
the active logger value as "a comma-separated multi-plugin selection"
resolving to an ordered list of names.  Empty tokens are dropped. -/
def osquerySplit (s : String) : List String :=
  (splitCommaAux s.data []).filter (fun t => ¬ t = "")

/-- Modelled from the spec: the delivery targets of one
`Registry::call("logger", request, response)` — the registry overload that
carries no item name (registry code is not part of the given source).  Per
the spec the registry resolves the active selection
(`resolveActiveBackendNames`, "which may be a comma-separated multi-plugin
selection") and dispatches to it, so one such call delivers the request to
every name in the active list. -/
def registryCallActiveTargets (activeStr : String) : List String :=
  osquerySplit activeStr

/-- The multiset (kept as an ordered list) of plugin names that receive
the drained batch during one `relayStatusLogs` sender run: for each active
logger name contained in the forwarding list, one
`Registry::call("logger", request, response)` is issued. -/
def relayDeliveryTargets (activeStr : String) (forwarding : List String) :
    List String :=
  (osquerySplit activeStr).flatMap (fun logger =>
    if forwarding.contains logger then registryCallActiveTargets activeStr
    else [])

/-- The delivery targets the claim (and the source's own comment "Skip the
registry's logic, and send directly to the core's logger") describes: each
active logger name present in the forwarding list receives the batch
directly, exactly once, and nothing is delivered to any other name. -/
def relayDeliveryTargetsClaimed (activeStr : String)
    (forwarding : List String) : List String :=
  (osquerySplit activeStr).filter (fun logger => forwarding.contains logger)

/-! ## The intermediate-log codec

`serializeIntermediateLog` (logger.cpp lines 258-276) builds a boost
property tree whose children (all with empty keys, i.e. a JSON array)
each hold the six string fields `s`, `f`, `i`, `m`, `c`, `u` of one
record, writes it as compact JSON (`pt::write_json(output, tree, false)`,
which appends one final newline) and stores the text under the request
key `log`.  `deserializeIntermediateLog` (lines 278-304) returns with an
empty output when the `log` key is absent or `pt::read_json` throws, and
otherwise rebuilds one record per child, with per-field defaults.

The boost property-tree JSON writer/reader pair is an external library,
not part of the given source.  It is modelled here on the exact shape the
writer produces: scalar values are written as JSON strings with the usual
escapes; a tree whose children all have empty keys is written as an array
`[...]` of objects; an empty tree is written as the bare value `""`.  The
reader model accepts an array of objects with string-valued fields and
treats every other input (including the bare `""` produced for an empty
tree, which the boost parser of that era rejects at top level) as a parse
failure, which `deserializeIntermediateLog` turns into an empty batch. -/

/-- The decimal digit character for `d < 10`. -/
def decDigitChar (d : Nat) : Char :=
  Char.ofNat (48 + d)

/-- Big-endian decimal digits of `n`, with fuel (`fuel ≥ n` suffices). -/
def natDigitsAux : Nat → Nat → List Char
  | 0, _ => []
  | _ + 1, 0 => []
  | fuel + 1, n + 1 =>
    natDigitsAux fuel ((n + 1) / 10) ++ [decDigitChar ((n + 1) % 10)]

/-- Decimal rendering of a `Nat`, as a C++ output stream writes it. -/
def natToChars (n : Nat) : List Char :=
  if n = 0 then ['0'] else natDigitsAux n n

/-- Decimal rendering of an `Int`, as a C++ output stream writes it. -/
def intToChars (i : Int) : List Char :=
  if i < 0 then '-' :: natToChars i.natAbs else natToChars i.toNat

/-- Accumulate decimal digits left to right. -/
def charsToNatCore (cs : List Char) : Nat :=
  cs.foldl (fun a c => a * 10 + (c.toNat - 48)) 0

/-- Whether a character is a decimal digit. -/
def isDecDigit (c : Char) : Bool :=
  decide (48 ≤ c.toNat) && decide (c.toNat ≤ 57)

/-- Strict decimal parse of a `Nat` (the boost stream translator for an
unsigned integer: every character consumed, at least one digit). -/
def charsToNatOpt (cs : List Char) : Option Nat :=
  if cs.isEmpty then none
  else if cs.all isDecDigit then some (charsToNatCore cs) else none

/-- Strict decimal parse of an `Int` (optional leading minus sign). -/
def charsToIntOpt : List Char → Option Int
  | [] => none
  | c :: rest =>
    if c = '-' then (charsToNatOpt rest).map (fun n => -(n : Int))
    else (charsToNatOpt (c :: rest)).map (fun n => (n : Int))

/-- Upper-case hexadecimal digit character for `d < 16`. -/
def hexDigitChar (d : Nat) : Char :=
  if d < 10 then Char.ofNat (48 + d) else Char.ofNat (55 + d)

/-- Hexadecimal digit value of a character (either case accepted). -/
def hexValOpt (c : Char) : Option Nat :=
  if 48 ≤ c.toNat ∧ c.toNat ≤ 57 then some (c.toNat - 48)
  else if 65 ≤ c.toNat ∧ c.toNat ≤ 70 then some (c.toNat - 55)
  else if 97 ≤ c.toNat ∧ c.toNat ≤ 102 then some (c.toNat - 87)
  else none

/-- JSON escaping of one character as the boost writer performs it: quote
and backslash get two-character escapes, the usual control characters get
their named escapes, the remaining control characters are written as
4-digit hexadecimal escapes, everything else is passed through. -/
def escapeChar (c : Char) : List Char :=
  if c = '"' then ['\\', '"']
  else if c = '\\' then ['\\', '\\']
  else if c.toNat = 8 then ['\\', 'b']
  else if c.toNat = 12 then ['\\', 'f']
  else if c = '\n' then ['\\', 'n']
  else if c.toNat = 13 then ['\\', 'r']
  else if c.toNat = 9 then ['\\', 't']
  else if c.toNat < 32 then
    ['\\', 'u', '0', '0', hexDigitChar (c.toNat / 16), hexDigitChar (c.toNat % 16)]
  else [c]

/-- JSON escaping of a character sequence. -/
def escapeList (cs : List Char) : List Char :=
  cs.flatMap escapeChar

/-- The character denoted by a single-character JSON escape. -/
def unescapeNamed (c : Char) : Option Char :=
  if c = '"' then some '"'
  else if c = '\\' then some '\\'
  else if c = '/' then some '/'
  else if c = 'b' then some (Char.ofNat 8)
  else if c = 'f' then some (Char.ofNat 12)
  else if c = 'n' then some '\n'
  else if c = 'r' then some (Char.ofNat 13)
  else if c = 't' then some (Char.ofNat 9)
  else none

/-- Parse four hexadecimal digits into their value. -/
def parseHex4 : List Char → Option (Nat × List Char)
  | h1 :: h2 :: h3 :: h4 :: rest =>
    match hexValOpt h1, hexValOpt h2, hexValOpt h3, hexValOpt h4 with
    | some a, some b, some c3, some d =>
      some (((a * 16 + b) * 16 + c3) * 16 + d, rest)
    | _, _, _, _ => none
  | _ => none

/-- Parse the body of a JSON string up to and including its closing
quote; returns the unescaped content and the remaining input.  The fuel
bounds the number of produced characters (one unit per input character is
ample, since every escape spans several input characters). -/
def parseStringBodyF : Nat → List Char → Option (List Char × List Char)
  | 0, _ => none
  | fuel + 1, cs =>
    match cs with
    | [] => none
    | c :: rest =>
      if c = '"' then some ([], rest)
      else if c = '\\' then
        match rest with
        | [] => none
        | e :: rest2 =>
          if e = 'u' then
            match parseHex4 rest2 with
            | some (n, rest3) =>
              if n < 55296 then
                (parseStringBodyF fuel rest3).map
                  (fun p => (Char.ofNat n :: p.1, p.2))
              else none
            | none => none
          else
            match unescapeNamed e with
            | some d =>
              (parseStringBodyF fuel rest2).map (fun p => (d :: p.1, p.2))
            | none => none
      else (parseStringBodyF fuel rest).map (fun p => (c :: p.1, p.2))

/-- Parse a quoted JSON string (opening quote included). -/
def parseQuoted : List Char → Option (List Char × List Char)
  | [] => none
  | c :: rest =>
    if c = '"' then parseStringBodyF rest.length rest else none

/-- Write a quoted, escaped JSON string. -/
def writeStringChars (s : String) : List Char :=
  '"' :: (escapeList s.data ++ ['"'])

/-- Write one `"key":"value"` member. -/
def writeFieldChars (f : String × String) : List Char :=
  writeStringChars f.1 ++ ':' :: writeStringChars f.2

/-- Interpose commas between the given pieces. -/
def joinComma : List (List Char) → List Char
  | [] => []
  | [x] => x
  | x :: y :: rest => x ++ ',' :: joinComma (y :: rest)

/-- Write one array element: the JSON object of one tree child. -/
def writeChildChars (fs : List (String × String)) : List Char :=
  '{' :: (joinComma (fs.map writeFieldChars) ++ ['}'])

/-- The compact JSON text of the whole tree (`pt::write_json` with
`pretty == false`): an array of the children's objects, or the bare value
`""` for an empty tree, followed by the stream's final newline. -/
def writeJsonChars (children : List (List (String × String))) : List Char :=
  (if children.isEmpty then ['"', '"']
   else '[' :: (joinComma (children.map writeChildChars) ++ [']'])) ++ ['\n']

/-- Parse the members of a JSON object after its opening brace, up to and
including the closing brace; at least one member expected.  The fuel
bounds the number of members (callers pass the input length). -/
def parseFields : Nat → List Char → Option (List (String × String) × List Char)
  | 0, _ => none
  | fuel + 1, cs =>
    match parseQuoted cs with
    | none => none
    | some (k, rest1) =>
      match rest1 with
      | [] => none
      | c1 :: rest2 =>
        if c1 = ':' then
          match parseQuoted rest2 with
          | none => none
          | some (v, rest3) =>
            match rest3 with
            | [] => none
            | c2 :: rest4 =>
              if c2 = ',' then
                match parseFields fuel rest4 with
                | some (fs, r) => some ((String.mk k, String.mk v) :: fs, r)
                | none => none
              else if c2 = '}' then some ([(String.mk k, String.mk v)], rest4)
              else none
        else none

/-- Parse a JSON object body after the opening brace (empty or not). -/
def parseObjBody (cs : List Char) : Option (List (String × String) × List Char) :=
  match cs with
  | [] => none
  | c :: rest => if c = '}' then some ([], rest) else parseFields cs.length cs

/-- Parse the elements of a JSON array of objects after its opening
bracket, up to and including the closing bracket; at least one element
expected.  The fuel bounds the number of elements. -/
def parseElems : Nat → List Char → Option (List (List (String × String)) × List Char)
  | 0, _ => none
  | fuel + 1, cs =>
    match cs with
    | [] => none
    | c :: rest =>
      if c = '{' then
        match parseObjBody rest with
        | none => none
        | some (fs, rest2) =>
          match rest2 with
          | [] => none
          | c2 :: rest3 =>
            if c2 = ',' then
              match parseElems fuel rest3 with
              | some (cls, r) => some (fs :: cls, r)
              | none => none
            else if c2 = ']' then some ([fs], rest3)
            else none
      else none

/-- Drop leading JSON whitespace. -/
def skipWs (cs : List Char) : List Char :=
  cs.dropWhile (fun c =>
    c == ' ' || c == '\n' || c == '\t' || c == Char.ofNat 13)

/-- The reader model for `pt::read_json` followed by the source's
enumeration of `tree.get_child("")` (the root's children): on an array of
objects it yields the field list of each element; any other input is a
parse failure (`none`), standing for the thrown
`json_parser_error` that `deserializeIntermediateLog` catches. -/
def readJsonChildren (s : String) : Option (List (List (String × String))) :=
  match skipWs s.data with
  | [] => none
  | c :: rest =>
    if c = '[' then
      match rest with
      | [] => none
      | c2 :: rest2 =>
        if c2 = ']' then
          if (skipWs rest2).isEmpty then some [] else none
        else
          match parseElems rest.length rest with
          | some (cls, rest3) =>
            if (skipWs rest3).isEmpty then some cls else none
          | none => none
    else none

/-- `item.second.get<std::string>(key, default)` on one child. -/
def ptGetStr (fs : List (String × String)) (key dflt : String) : String :=
  (lookupReq fs key).getD dflt

/-- `item.second.get<int>(key, default)` on one child: translation
failure falls back to the default. -/
def ptGetInt (fs : List (String × String)) (key : String) (dflt : Int) : Int :=
  ((lookupReq fs key).bind (fun v => charsToIntOpt v.data)).getD dflt

/-- `item.second.get<size_t>(key, default)` on one child. -/
def ptGetNat (fs : List (String × String)) (key : String) (dflt : Nat) : Nat :=
  ((lookupReq fs key).bind (fun v => charsToNatOpt v.data)).getD dflt

/-- The tree child built for one record (lines 262-269): the fields in
`put` order, each value a string. -/
def recordToChild (r : StatusLogLine) : List (String × String) :=
  [("s", String.mk (intToChars r.severity)),
   ("f", r.filename),
   ("i", String.mk (intToChars r.line)),
   ("m", r.message),
   ("c", r.calendar_time),
   ("u", String.mk (natToChars r.time))]

/-- The record rebuilt from one child (lines 295-302), with the decode
defaults of the source. -/
def childToRecord (fs : List (String × String)) : StatusLogLine :=
  ⟨ptGetInt fs "s" O_INFO, ptGetStr fs "f" "<unknown>", ptGetInt fs "i" 0,
   ptGetStr fs "m" "", ptGetStr fs "c" "", ptGetNat fs "u" 0⟩

/-- `serializeIntermediateLog(log, request)`: store the JSON text of the
batch under `request["log"]`. -/
def serializeIntermediateLog (log : List StatusLogLine)
    (request : PluginRequest) : PluginRequest :=
  insertReq request "log" (String.mk (writeJsonChars (log.map recordToChild)))

/-- `deserializeIntermediateLog(request, log)`: empty result when the
`log` key is absent or its text does not parse; otherwise one record per
child. -/
def deserializeIntermediateLog (request : PluginRequest) :
    List StatusLogLine :=
  match lookupReq request "log" with
  | none => []
  | some s =>
    match readJsonChildren s with
    | none => []
    | some children => children.map childToRecord

/-! ## The plugin dispatch protocol (`LoggerPlugin::call`)

`LoggerPlugin::call` (logger.cpp lines 486-518).  A plugin's virtual
methods are modelled as result functions plus the two feature flags; the
side effects of one `call` are recorded as an ordered trace of invoked
methods, so a suppressed request is exactly one with an empty trace. -/

/-- One virtual-method invocation performed during a `call`. -/
inductive PluginOp where
  | logStringOp (s : String)
  | logSnapshotOp (s : String)
  | setProcessNameOp (s : String)
  | initOp (pluginName : String) (batch : List StatusLogLine)
  | logStatusOp (batch : List StatusLogLine)
  | logEventOp (s : String)
deriving DecidableEq, Repr

/-- A logger plugin: its registry name (`getName()` / `name()`), the
results its virtual methods return, and its two feature predicates
(`usesLogStatus` / `usesLogEvent`). -/
structure LoggerPluginImpl where
  pluginName : String
  logStringResult : String → Status
  logSnapshotResult : String → Status
  logStatusResult : List StatusLogLine → Status
  logEventResult : String → Status
  usesLogStatus : Bool
  usesLogEvent : Bool

/-- Modelled from the spec: the `LOGGER_FEATURE_LOGSTATUS` bit of the
feature bitmask (logger.h is not part of the given source); per the spec
a distinct bit, taken as bit 0. -/
def LOGGER_FEATURE_LOGSTATUS : Nat := 1

/-- Modelled from the spec: the `LOGGER_FEATURE_LOGEVENT` bit of the
feature bitmask, taken as bit 1. -/
def LOGGER_FEATURE_LOGEVENT : Nat := 2

/-- The feature bitmask computed by the `action == "features"` branch
(lines 511-514). -/
def featuresVal (p : LoggerPluginImpl) : Nat :=
  (if p.usesLogStatus then LOGGER_FEATURE_LOGSTATUS else 0) |||
    (if p.usesLogEvent then LOGGER_FEATURE_LOGEVENT else 0)

/-- The secondary-status-only suppression guard (lines 488-490):
`FLAGS_logger_secondary_status_only`, the plugin is not primary, and the
request holds a `string` or `snapshot` key. -/
def suppressedSecondary (secondaryOnly : Bool) (primary : String)
    (p : LoggerPluginImpl) (request : PluginRequest) : Bool :=
  secondaryOnly && !(isPrimaryLogger p.pluginName primary) &&
    (hasKey request "string" || hasKey request "snapshot")

/-- `LoggerPlugin::call(request, response)` as a pure function of the
global flag, the elected primary name, the plugin and the request:
returns the `Status` and the trace of virtual methods invoked. -/
def LoggerPluginCall (secondaryOnly : Bool) (primary : String)
    (p : LoggerPluginImpl) (request : PluginRequest) :
    Status × List PluginOp :=
  if suppressedSecondary secondaryOnly primary p request then
    (⟨0, "Logging disabled to secondary plugins"⟩, [])
  else if hasKey request "string" then
    (p.logStringResult (reqAt request "string"),
     [.logStringOp (reqAt request "string")])
  else if hasKey request "snapshot" then
    (p.logSnapshotResult (reqAt request "snapshot"),
     [.logSnapshotOp (reqAt request "snapshot")])
  else if hasKey request "init" then
    (⟨0, "OK"⟩,
     [.setProcessNameOp (reqAt request "init"),
      .initOp p.pluginName (deserializeIntermediateLog request)])
  else if hasKey request "status" then
    (p.logStatusResult (deserializeIntermediateLog request),
     [.logStatusOp (deserializeIntermediateLog request)])
  else if hasKey request "event" then
    (p.logEventResult (reqAt request "event"),
     [.logEventOp (reqAt request "event")])
  else if lookupReq request "action" = some "features" then
    (⟨Int.ofNat (featuresVal p), "OK"⟩, [])
  else (⟨1, "Unsupported call to logger plugin"⟩, [])

/-! ## `logQueryLogItem`

`logQueryLogItem(results, receiver)` (logger.cpp lines 540-566).  The
query-item serializers live outside the given source, so their outputs
are parameters: `eventsSer` is the status and item list of
`serializeQueryLogItemAsEventsJSON`, `singleSer` the status and single
string of `serializeQueryLogItemJSON`.  Each forwarded item goes through
`logString(json, "event", receiver)`, whose registry outcome is the
parameter `registryStatus`; the emitted `logString` requests are recorded
as a trace. -/

/-- One `logString(message, category, receiver)` delivery. -/
structure LogStringCall where
  message : String
  category : String
  receiver : String
deriving DecidableEq, Repr

/-- Whether a serialized item is non-empty with a trailing newline
(`!json.empty() && json.back() == '\n'`). -/
def endsWithNewline (s : String) : Bool :=
  match s.data.getLast? with
  | some c => c = '\n'
  | none => false

/-- The loop body of lines 559-564: forward the item (with its trailing
newline popped) only when `endsWithNewline`; the `Status` is overwritten
only for forwarded items. -/
def logQueryItemStep (registryStatus : LogStringCall → Status)
    (receiver : String) (acc : Status × List LogStringCall)
    (json : String) : Status × List LogStringCall :=
  if endsWithNewline json then
    (registryStatus ⟨String.mk json.data.dropLast, "event", receiver⟩,
     acc.2 ++ [⟨String.mk json.data.dropLast, "event", receiver⟩])
  else acc

/-- `logQueryLogItem(results, receiver)` as a pure function: the disabled
short-circuit, the mode-dependent serialization, the failed-serialization
return, and the forwarding loop. -/
def logQueryLogItemModel (registryStatus : LogStringCall → Status)
    (disableLogging logResultEvents : Bool)
    (eventsSer : Status × List String) (singleSer : Status × String)
    (receiver : String) : Status × List LogStringCall :=
  if disableLogging then (⟨0, "Logging disabled"⟩, [])
  else
    let serialized :=
      if logResultEvents then eventsSer else (singleSer.1, [singleSer.2])
    if ¬ serialized.1.code = 0 then (serialized.1, [])
    else serialized.2.foldl (logQueryItemStep registryStatus receiver)
      (serialized.1, [])

/-- A sample plugin used to instantiate universally quantified theorems:
status-capable, not event-capable, all methods succeeding. -/
def samplePlugin : LoggerPluginImpl :=
  ⟨"sample", fun _ => ⟨0, "OK"⟩, fun _ => ⟨0, "OK"⟩, fun _ => ⟨0, "OK"⟩,
   fun _ => ⟨0, "OK"⟩, true, false⟩

/-! ## Theorems -/

theorem lookupReq_insertReq (req : PluginRequest) (key val : String) :
    lookupReq (insertReq req key val) key = some val := by
  induction req with
  | nil => simp [insertReq, lookupReq]
  | cons hd tl ih =>
    obtain ⟨k, v⟩ := hd
    by_cases h : k = key
    · simp [insertReq, lookupReq, h]
    · simp [insertReq, lookupReq, h, ih]

theorem appendedRecords_nil : appendedRecords [] = [] := rfl

theorem appendedRecords_cons_record (r : StatusLogLine) (evs : List LogEvent) :
    appendedRecords (.record r :: evs) = r :: appendedRecords evs := rfl

theorem appendedRecords_cons_drain (evs : List LogEvent) :
    appendedRecords (.drain :: evs) = appendedRecords evs := rfl

theorem logStep_fold (evs : List LogEvent) :
    ∀ buf : List StatusLogLine, ∀ outs : List (List StatusLogLine),
      (evs.foldl logStep (buf, outs)).2.flatten ++ (evs.foldl logStep (buf, outs)).1
        = outs.flatten ++ (buf ++ appendedRecords evs) := by
  induction evs with
  | nil => intro buf outs; simp [appendedRecords]
  | cons e rest ih =>
    intro buf outs
    cases e with
    | record r =>
      simp only [List.foldl_cons, logStep, appendedRecords_cons_record]
      rw [ih (buf ++ [r]) outs]
      simp
    | drain =>
      by_cases h : buf.isEmpty
      · have hb : buf = [] := by simpa [List.isEmpty_iff] using h
        simp only [List.foldl_cons, logStep, h, if_pos,
          appendedRecords_cons_drain]
        rw [ih buf outs, hb]
      · simp only [List.foldl_cons, logStep, h, if_neg,
          Bool.false_eq_true, not_false_iff, appendedRecords_cons_drain]
        rw [ih [] (outs ++ [buf])]
        simp

/-- C1: over every interleaving of `record()` appends and drains, the
concatenation of the batches delivered by the drains followed by the
records still buffered equals the full append sequence, in order; hence
the multiset of delivered records equals the multiset of appended records
that have been drained — no record is delivered twice and none is dropped
between two consecutive drains. -/
theorem drain_conserves_records (evs : List LogEvent) :
    (runLog evs).2.flatten ++ (runLog evs).1 = appendedRecords evs := by
  have h := logStep_fold evs [] []
  simpa [runLog] using h

/-- C3 (evaluation at the failing input): on the queue `[t1, t2]` whose
front (oldest) entry is `t1`, `WaitTillSent` removes `t1` from the queue
but the future it waits on is `senders.back() = t2`, the newest — not the
popped oldest task the spec describes — and the waited-on handle remains
queued (moved-from).  On an empty queue the call is a no-op, and exactly
one entry is consumed. -/
theorem waitTillSent_waits_newest_not_oldest :
    waitTillSentModel ["t1", "t2"] = (some "t2", ["t2"]) ∧
    ¬ (some "t2" : Option String) = some "t1" ∧
    waitTillSentModel [] = (none, []) ∧
    (waitTillSentModel ["t1", "t2"]).2.length = 1 := by
  refine ⟨rfl, by decide, rfl, rfl⟩

/-- C4 (evaluation at the failing input): with active logger selection
"a,b" and forwarding list ["a"], the sender loop issues one nameless
`Registry::call("logger", request, response)` for the matching name "a",
and that call dispatches to the whole active selection — so the
non-forwarding plugin "b" receives the batch too, contradicting the
claimed direct, forwarding-only delivery (and the source's own comment
"send directly to the core's logger"). -/
theorem relayDelivery_not_direct :
    relayDeliveryTargets "a,b" ["a"] = ["a", "b"] ∧
    relayDeliveryTargetsClaimed "a,b" ["a"] = ["a"] ∧
    ¬ relayDeliveryTargets "a,b" ["a"]
        = relayDeliveryTargetsClaimed "a,b" ["a"] := by
  refine ⟨rfl, rfl, by decide⟩

/-- C8: the primary election is first-write-wins — `setPrimary` writes
only into an empty `primary_`, a non-empty `primary_` survives any later
call sequence unchanged — and `isPrimaryLogger(name)` is true exactly
when `primary_` is empty (fail-open) or equals `name`, hence false for
every name other than the elected one. -/
theorem primary_first_write_wins :
    (∀ p n : String, ¬ p = "" → setPrimary n p = p) ∧
    (∀ n : String, setPrimary n "" = n) ∧
    (∀ p n : String, isPrimaryLogger n p = true ↔ (p = "" ∨ n = p)) ∧
    (∀ p : String, ∀ names : List String, ¬ p = "" →
      names.foldl (fun acc n => setPrimary n acc) p = p) ∧
    (∀ n1 n2 : String, ¬ n1 = "" → ¬ n2 = n1 →
      isPrimaryLogger n2 (setPrimary n1 "") = false) := by
  refine ⟨?_, ?_, ?_, ?_, ?_⟩
  · intro p n hp; simp [setPrimary, hp]
  · intro n; simp [setPrimary]
  · intro p n; simp [isPrimaryLogger]
  · intro p names hp
    induction names with
    | nil => rfl
    | cons m rest ih =>
      rw [List.foldl_cons]
      simp only [setPrimary, hp, if_neg]
      exact ih
  · intro n1 n2 h1 h2; simp [setPrimary, isPrimaryLogger, h1, h2]

theorem primary_first_write_wins_witness :
    setPrimary "b" "a" = "a" ∧
    isPrimaryLogger "b" (setPrimary "a" "") = false :=
  ⟨primary_first_write_wins.1 "a" "b" (by decide),
   primary_first_write_wins.2.2.2.2 "a" "b" (by decide) (by decide)⟩

theorem sinkStep_preserves_inv (s : SinkFlags) (op : SinkOp)
    (h : s.enabled = true → s.active = true) :
    (sinkStep s op).enabled = true → (sinkStep s op).active = true := by
  obtain ⟨a, e⟩ := s
  cases a <;> cases e <;> cases op <;>
    simp_all [sinkStep, setUpStep, enableStep, disableStep]

theorem runSink_inv (ops : List SinkOp) :
    (runSink ops).enabled = true → (runSink ops).active = true := by
  suffices h : ∀ s : SinkFlags, (s.enabled = true → s.active = true) →
      ((ops.foldl sinkStep s).enabled = true →
        (ops.foldl sinkStep s).active = true) by
    exact h initSinkFlags (by intro h'; cases h')
  induction ops with
  | nil => intro s hs; exact hs
  | cons op rest ih =>
    intro s hs
    rw [List.foldl_cons]
    exact ih (sinkStep s op) (sinkStep_preserves_inv s op hs)

/-- C9: from the initial inactive/disabled state, every setUp/enable/
disable sequence keeps the invariant `enabled = true → active = true`;
`enable` always leaves a reachable state attached and enabled; `disable`
on a disabled state changes neither flag (so buffering-only mode entered
through `setUp` survives `disable` calls); and `setUp` attaches without
touching `enabled`. -/
theorem sink_state_machine_props :
    (∀ ops : List SinkOp,
      (runSink ops).enabled = true → (runSink ops).active = true) ∧
    (∀ ops : List SinkOp,
      (enableStep (runSink ops)).active = true ∧
        (enableStep (runSink ops)).enabled = true) ∧
    (∀ s : SinkFlags, s.enabled = false → disableStep s = s) ∧
    (∀ s : SinkFlags,
      (setUpStep s).active = true ∧ (setUpStep s).enabled = s.enabled) := by
  refine ⟨runSink_inv, ?_, ?_, ?_⟩
  · intro ops
    have hinv := runSink_inv ops
    revert hinv
    generalize runSink ops = s
    obtain ⟨a, e⟩ := s
    intro hinv
    cases a <;> cases e <;> simp_all [enableStep]
  · intro s hs
    obtain ⟨a, e⟩ := s
    cases a <;> simp_all [disableStep]
  · intro s
    obtain ⟨a, e⟩ := s
    cases a <;> simp [setUpStep]

theorem sink_state_machine_props_witness :
    (runSink [SinkOp.enable]).active = true ∧
    disableStep ⟨true, false⟩ = ⟨true, false⟩ :=
  ⟨sink_state_machine_props.1 [SinkOp.enable] rfl,
   sink_state_machine_props.2.2.1 ⟨true, false⟩ rfl⟩

theorem Char_toNat_ofNat_valid (n : Nat) (h : n < 55296) :
    (Char.ofNat n).toNat = n := by
  have hv : n.isValidChar := Or.inl h
  rw [Char.ofNat, dif_pos hv]
  rfl

theorem charsToNatCore_append (xs : List Char) (c : Char) :
    charsToNatCore (xs ++ [c]) = charsToNatCore xs * 10 + (c.toNat - 48) := by
  simp [charsToNatCore, List.foldl_append]

theorem decDigitChar_toNat (d : Nat) (h : d < 10) :
    (decDigitChar d).toNat = 48 + d := by
  exact Char_toNat_ofNat_valid (48 + d) (by omega)

theorem isDecDigit_decDigitChar (d : Nat) (h : d < 10) :
    isDecDigit (decDigitChar d) = true := by
  simp only [isDecDigit, decDigitChar_toNat d h, Bool.and_eq_true,
    decide_eq_true_eq]
  omega

theorem natDigitsAux_core (fuel : Nat) :
    ∀ n : Nat, n ≤ fuel → charsToNatCore (natDigitsAux fuel n) = n := by
  induction fuel with
  | zero =>
    intro n hn
    have : n = 0 := by omega
    subst this
    rfl
  | succ f ih =>
    intro n hn
    match n with
    | 0 => rfl
    | m + 1 =>
      have hdiv : (m + 1) / 10 ≤ f := by
        have := Nat.div_lt_self (Nat.succ_pos m) (by norm_num : (1 : Nat) < 10)
        omega
      rw [natDigitsAux, charsToNatCore_append, ih ((m + 1) / 10) hdiv,
        decDigitChar_toNat ((m + 1) % 10) (Nat.mod_lt _ (by norm_num))]
      omega

theorem natDigitsAux_digits (fuel : Nat) :
    ∀ n : Nat, ∀ c ∈ natDigitsAux fuel n, isDecDigit c = true := by
  induction fuel with
  | zero => intro n c hc; simp [natDigitsAux] at hc
  | succ f ih =>
    intro n c hc
    match n with
    | 0 => simp [natDigitsAux] at hc
    | m + 1 =>
      rw [natDigitsAux] at hc
      rcases List.mem_append.mp hc with h | h
      · exact ih _ c h
      · have : c = decDigitChar ((m + 1) % 10) := by simpa using h
        subst this
        exact isDecDigit_decDigitChar _ (Nat.mod_lt _ (by norm_num))

theorem natDigitsAux_ne_nil (fuel n : Nat) (h0 : 0 < n) (hle : n ≤ fuel) :
    ¬ natDigitsAux fuel n = [] := by
  match fuel, n with
  | 0, n => omega
  | f + 1, 0 => omega
  | f + 1, m + 1 => simp [natDigitsAux]

theorem charsToNatOpt_natToChars (n : Nat) :
    charsToNatOpt (natToChars n) = some n := by
  by_cases h : n = 0
  · subst h; decide
  · have hpos : 0 < n := Nat.pos_of_ne_zero h
    rw [natToChars, if_neg h]
    rw [charsToNatOpt, if_neg (by
      simpa [List.isEmpty_iff] using natDigitsAux_ne_nil n n hpos le_rfl)]
    rw [if_pos (by
      rw [List.all_eq_true]
      intro c hc
      exact natDigitsAux_digits n n c hc)]
    rw [natDigitsAux_core n n le_rfl]

theorem charsToIntOpt_of_digits (cs : List Char)
    (h : ∀ c ∈ cs, isDecDigit c = true) :
    charsToIntOpt cs = (charsToNatOpt cs).map (fun n => (n : Int)) := by
  match cs with
  | [] => rfl
  | c :: rest =>
    have hc : isDecDigit c = true := h c (List.mem_cons_self c rest)
    have hne : ¬ c = '-' := by
      intro hcc
      rw [hcc] at hc
      exact absurd hc (by decide)
    simp [charsToIntOpt, hne]

theorem natToChars_digits (n : Nat) :
    ∀ c ∈ natToChars n, isDecDigit c = true := by
  intro c hc
  by_cases h : n = 0
  · subst h
    simp [natToChars] at hc
    subst hc
    decide
  · rw [natToChars, if_neg h] at hc
    exact natDigitsAux_digits n n c hc

theorem charsToIntOpt_intToChars (i : Int) :
    charsToIntOpt (intToChars i) = some i := by
  by_cases h : i < 0
  · rw [intToChars, if_pos h]
    have hstep : charsToIntOpt ('-' :: natToChars i.natAbs)
        = (charsToNatOpt (natToChars i.natAbs)).map (fun n => -(n : Int)) := by
      simp [charsToIntOpt]
    rw [hstep, charsToNatOpt_natToChars]
    simp [Int.ofNat_natAbs_of_nonpos (le_of_lt h)]
  · rw [intToChars, if_neg h]
    rw [charsToIntOpt_of_digits _ (natToChars_digits i.toNat),
      charsToNatOpt_natToChars]
    simp [Int.toNat_of_nonneg (not_lt.mp h)]

theorem hexValOpt_hexDigitChar (d : Nat) (h : d < 16) :
    hexValOpt (hexDigitChar d) = some d := by
  interval_cases d <;> decide

theorem parseHex4_digits (v : Nat) (hv : v < 256) (rest : List Char) :
    parseHex4 ('0' :: '0' :: hexDigitChar (v / 16) :: hexDigitChar (v % 16)
      :: rest) = some (v, rest) := by
  have hd1 := hexValOpt_hexDigitChar (v / 16) (by omega)
  have hd2 := hexValOpt_hexDigitChar (v % 16) (Nat.mod_lt _ (by norm_num))
  have hv0 : hexValOpt '0' = some 0 := by decide
  have harith : ((0 * 16 + 0) * 16 + v / 16) * 16 + v % 16 = v := by omega
  simp only [parseHex4, hv0, hd1, hd2, harith]

theorem parseStringBodyF_escapeChar (f : Nat) (c : Char) (tail : List Char) :
    parseStringBodyF (f + 1) (escapeChar c ++ tail)
      = (parseStringBodyF f tail).map (fun p => (c :: p.1, p.2)) := by
  by_cases h1 : c = '"'
  · subst h1; simp [escapeChar, parseStringBodyF, unescapeNamed]
  · by_cases h2 : c = '\\'
    · subst h2; simp [escapeChar, parseStringBodyF, unescapeNamed]
    · by_cases h3 : c.toNat = 8
      · have hc : c = Char.ofNat 8 := by rw [← h3, Char.ofNat_toNat]
        rw [show escapeChar c = ['\\', 'b'] by
          simp [escapeChar, h1, h2, h3]]
        rw [hc]
        simp [parseStringBodyF, unescapeNamed]
      · by_cases h4 : c.toNat = 12
        · have hc : c = Char.ofNat 12 := by rw [← h4, Char.ofNat_toNat]
          rw [show escapeChar c = ['\\', 'f'] by
            simp [escapeChar, h1, h2, h3, h4]]
          rw [hc]
          simp [parseStringBodyF, unescapeNamed]
        · by_cases h5 : c = '\n'
          · subst h5
            simp [escapeChar, parseStringBodyF, unescapeNamed]
          · by_cases h6 : c.toNat = 13
            · have hc : c = Char.ofNat 13 := by rw [← h6, Char.ofNat_toNat]
              rw [show escapeChar c = ['\\', 'r'] by
                simp [escapeChar, h1, h2, h3, h4, h5, h6]]
              rw [hc]
              simp [parseStringBodyF, unescapeNamed]
            · by_cases h7 : c.toNat = 9
              · have hc : c = Char.ofNat 9 := by rw [← h7, Char.ofNat_toNat]
                rw [show escapeChar c = ['\\', 't'] by
                  simp [escapeChar, h1, h2, h3, h4, h5, h6, h7]]
                rw [hc]
                simp [parseStringBodyF, unescapeNamed]
              · by_cases h8 : c.toNat < 32
                · rw [show escapeChar c
                      = ['\\', 'u', '0', '0', hexDigitChar (c.toNat / 16),
                         hexDigitChar (c.toNat % 16)] by
                    simp [escapeChar, h1, h2, h3, h4, h5, h6, h7, h8]]
                  have hp4 := parseHex4_digits c.toNat (by omega) tail
                  simp [parseStringBodyF, hp4, Nat.lt_of_lt_of_le h8
                    (by norm_num : (32 : Nat) ≤ 55296)]
                · rw [show escapeChar c = [c] by
                    simp [escapeChar, h1, h2, h3, h4, h5, h6, h7, h8]]
                  simp [parseStringBodyF, h1, h2]

theorem escapeChar_length_pos (c : Char) : 0 < (escapeChar c).length := by
  rw [escapeChar]
  split_ifs <;> simp

theorem escapeList_length_ge (cs : List Char) :
    cs.length ≤ (escapeList cs).length := by
  induction cs with
  | nil => simp [escapeList]
  | cons c cs ih =>
    have hc := escapeChar_length_pos c
    simp only [escapeList, List.flatMap_cons, List.length_append,
      List.length_cons]
    simp only [escapeList] at ih
    omega

theorem parseStringBodyF_escape (cs : List Char) :
    ∀ fuel : Nat, cs.length < fuel → ∀ rest : List Char,
      parseStringBodyF fuel (escapeList cs ++ '"' :: rest)
        = some (cs, rest) := by
  induction cs with
  | nil =>
    intro fuel hf rest
    match fuel, hf with
    | f + 1, _ => simp [escapeList, parseStringBodyF]
  | cons c cs ih =>
    intro fuel hf rest
    match fuel, hf with
    | f + 1, hf =>
      have hsplit : escapeList (c :: cs) ++ '"' :: rest
          = escapeChar c ++ (escapeList cs ++ '"' :: rest) := by
        simp [escapeList]
      rw [hsplit, parseStringBodyF_escapeChar,
        ih f (by simp at hf; omega) rest]
      rfl

theorem parseQuoted_write (s : String) (tail : List Char) :
    parseQuoted (writeStringChars s ++ tail) = some (s.data, tail) := by
  have hshape : writeStringChars s ++ tail
      = '"' :: (escapeList s.data ++ '"' :: tail) := by
    simp [writeStringChars]
  rw [hshape]
  have hlen : s.data.length < (escapeList s.data ++ '"' :: tail).length := by
    have := escapeList_length_ge s.data
    simp only [List.length_append, List.length_cons]
    omega
  simp only [parseQuoted, if_pos rfl]
  exact parseStringBodyF_escape s.data _ hlen tail

theorem writeFieldChars_shape (f : String × String) :
    writeFieldChars f = '"' :: ((escapeList f.1.data ++ ['"'])
      ++ ':' :: writeStringChars f.2) := by
  simp [writeFieldChars, writeStringChars]

theorem writeChildChars_shape (fs : List (String × String)) :
    writeChildChars fs = '{' :: (joinComma (fs.map writeFieldChars)
      ++ ['}']) := rfl

theorem joinComma_cons_head (x : List Char) (xs : List (List Char))
    (c : Char) (t : List Char) (hx : x = c :: t) :
    ∃ u, joinComma (x :: xs) = c :: u := by
  cases xs with
  | nil => exact ⟨t, by simp [joinComma, hx]⟩
  | cons y ys =>
    exact ⟨t ++ ',' :: joinComma (y :: ys), by simp [joinComma, hx]⟩

theorem joinComma_length_ge (l : List (List Char))
    (h : ∀ x ∈ l, 0 < x.length) : l.length ≤ (joinComma l).length := by
  induction l with
  | nil => simp [joinComma]
  | cons x xs ih =>
    cases xs with
    | nil =>
      have hx := h x (List.mem_cons_self x [])
      simp only [joinComma, List.length_cons, List.length_nil]
      omega
    | cons y ys =>
      have hx := h x (List.mem_cons_self x (y :: ys))
      have hrest := ih (fun z hz => h z (List.mem_cons_of_mem x hz))
      simp only [joinComma, List.length_append, List.length_cons] at *
      omega

theorem parseFields_write (fs : List (String × String)) :
    ¬ fs = [] → ∀ fuel : Nat, fs.length ≤ fuel → ∀ tail : List Char,
      parseFields fuel (joinComma (fs.map writeFieldChars) ++ '}' :: tail)
        = some (fs, tail) := by
  induction fs with
  | nil => intro h; exact absurd rfl h
  | cons f fs2 ih =>
    intro _ fuel hfuel tail
    obtain ⟨k, v⟩ := f
    match fuel, hfuel with
    | g + 1, hfuel =>
      cases fs2 with
      | nil =>
        have hshape : joinComma ([((k, v) : String × String)].map
              writeFieldChars) ++ '}' :: tail
            = writeStringChars k
              ++ (':' :: (writeStringChars v ++ '}' :: tail)) := by
          simp [joinComma, writeFieldChars, List.append_assoc]
        rw [hshape]
        simp [parseFields, parseQuoted_write]
      | cons f2 fs3 =>
        have hshape : joinComma ((((k, v) : String × String) :: f2 :: fs3).map
              writeFieldChars) ++ '}' :: tail
            = writeStringChars k
              ++ (':' :: (writeStringChars v
                ++ ',' :: (joinComma ((f2 :: fs3).map writeFieldChars)
                  ++ '}' :: tail))) := by
          simp [joinComma, writeFieldChars, List.append_assoc]
        rw [hshape]
        have hr := ih (by simp) g
          (by simp only [List.length_cons] at hfuel ⊢; omega) tail
        simp only [List.map_cons] at hr
        simp [parseFields, parseQuoted_write, hr]

theorem parseObjBody_write (fs : List (String × String)) (tail : List Char) :
    parseObjBody (joinComma (fs.map writeFieldChars) ++ '}' :: tail)
      = some (fs, tail) := by
  cases fs with
  | nil => simp [joinComma, parseObjBody]
  | cons f fs2 =>
    obtain ⟨u, hu⟩ := joinComma_cons_head (writeFieldChars f)
      (fs2.map writeFieldChars) '"' _ (writeFieldChars_shape f)
    have hcs : joinComma ((f :: fs2).map writeFieldChars) ++ '}' :: tail
        = '"' :: (u ++ '}' :: tail) := by
      simp only [List.map_cons]
      rw [hu]
      simp
    rw [hcs]
    have hne : ¬ ('"' : Char) = '}' := by decide
    simp only [parseObjBody, if_neg hne]
    rw [← hcs]
    refine parseFields_write (f :: fs2) (by simp) _ ?_ tail
    have hjoin : (f :: fs2).length
        ≤ (joinComma ((f :: fs2).map writeFieldChars)).length := by
      have := joinComma_length_ge ((f :: fs2).map writeFieldChars) ?_
      · simpa using this
      · intro x hx
        obtain ⟨g, hg, hgx⟩ := List.mem_map.mp hx
        rw [← hgx, writeFieldChars_shape]
        simp
    simp only [List.length_append, List.length_cons] at hjoin ⊢
    omega

theorem parseElems_write (cls : List (List (String × String))) :
    ¬ cls = [] → ∀ fuel : Nat, cls.length ≤ fuel → ∀ tail : List Char,
      parseElems fuel (joinComma (cls.map writeChildChars) ++ ']' :: tail)
        = some (cls, tail) := by
  induction cls with
  | nil => intro h; exact absurd rfl h
  | cons c1 cls2 ih =>
    intro _ fuel hfuel tail
    match fuel, hfuel with
    | g + 1, hfuel =>
      cases cls2 with
      | nil =>
        have hshape : joinComma ([c1].map writeChildChars) ++ ']' :: tail
            = '{' :: (joinComma (c1.map writeFieldChars)
              ++ '}' :: (']' :: tail)) := by
          simp [joinComma, writeChildChars, List.append_assoc]
        rw [hshape]
        simp [parseElems, parseObjBody_write]
      | cons c2 cls3 =>
        have hshape : joinComma ((c1 :: c2 :: cls3).map writeChildChars)
              ++ ']' :: tail
            = '{' :: (joinComma (c1.map writeFieldChars)
              ++ '}' :: (',' :: (joinComma ((c2 :: cls3).map writeChildChars)
                ++ ']' :: tail))) := by
          simp [joinComma, writeChildChars, List.append_assoc]
        rw [hshape]
        have hr := ih (by simp) g
          (by simp only [List.length_cons] at hfuel ⊢; omega) tail
        simp only [List.map_cons] at hr
        simp [parseElems, parseObjBody_write, hr]

theorem readJsonChildren_write (cls : List (List (String × String)))
    (h : ¬ cls = []) :
    readJsonChildren (String.mk (writeJsonChars cls)) = some cls := by
  match cls, h with
  | c1 :: cls2, _ =>
    have hw : writeJsonChars (c1 :: cls2)
        = '[' :: (joinComma ((c1 :: cls2).map writeChildChars)
          ++ ']' :: ['\n']) := by
      simp [writeJsonChars]
    have hmk : (String.mk (writeJsonChars (c1 :: cls2))).data
        = writeJsonChars (c1 :: cls2) := rfl
    obtain ⟨u, hu⟩ : ∃ u, joinComma ((c1 :: cls2).map writeChildChars)
        ++ ']' :: ['\n'] = '{' :: u := by
      obtain ⟨u0, hu0⟩ := joinComma_cons_head (writeChildChars c1)
        (cls2.map writeChildChars) '{' _ (writeChildChars_shape c1)
      refine ⟨u0 ++ ']' :: ['\n'], ?_⟩
      simp only [List.map_cons]
      rw [hu0]
      simp
    have hlen : (c1 :: cls2).length
        ≤ (joinComma ((c1 :: cls2).map writeChildChars)
          ++ ']' :: ['\n']).length := by
      have hj := joinComma_length_ge ((c1 :: cls2).map writeChildChars) ?_
      · simp only [List.length_map] at hj
        simp only [List.length_append, List.length_cons] at hj ⊢
        omega
      · intro x hx
        obtain ⟨g, hg, hgx⟩ := List.mem_map.mp hx
        rw [← hgx, writeChildChars_shape]
        simp
    have hpe := parseElems_write (c1 :: cls2) (by simp) _ hlen ['\n']
    have hws : skipWs ('[' :: (joinComma ((c1 :: cls2).map writeChildChars)
        ++ ']' :: ['\n']))
        = '[' :: (joinComma ((c1 :: cls2).map writeChildChars)
          ++ ']' :: ['\n']) := by
      simp [skipWs]
    rw [hu] at hpe
    simp only [List.length_cons] at hpe
    simp only [readJsonChildren, hmk, hw, hws, hu]
    simp [hpe, skipWs]

theorem childToRecord_recordToChild (r : StatusLogLine) :
    childToRecord (recordToChild r) = r := by
  obtain ⟨sev, fn, ln, msg, ct, tm⟩ := r
  simp [childToRecord, recordToChild, ptGetInt, ptGetStr, ptGetNat,
    lookupReq, charsToIntOpt_intToChars, charsToNatOpt_natToChars]

/-- C2: the round-trip law of the intermediate-log codec — decoding the
request map produced by encoding any batch (of any size, over any prior
request contents) yields exactly the original records, with identical
severity, file, line, message, calendar-time and unix-time values, in the
same order. -/
theorem serializeIntermediateLog_roundtrip (log : List StatusLogLine)
    (request : PluginRequest) :
    deserializeIntermediateLog (serializeIntermediateLog log request)
      = log := by
  by_cases hl : log = []
  · subst hl
    simp only [serializeIntermediateLog, deserializeIntermediateLog,
      lookupReq_insertReq, List.map_nil]
    rw [show readJsonChildren (String.mk (writeJsonChars [])) = none from by
      decide]
  · have hmap : ¬ (log.map recordToChild) = [] := by simpa using hl
    simp only [serializeIntermediateLog, deserializeIntermediateLog,
      lookupReq_insertReq]
    rw [readJsonChildren_write _ hmap]
    have hcomp : childToRecord ∘ recordToChild = id :=
      funext (fun r => childToRecord_recordToChild r)
    simp [List.map_map, hcomp]

/-- C7: decode error handling — a request map with no `log` key decodes to
the empty batch; a request map whose `log` value does not parse also
decodes to the empty batch (deserialization is total, so neither case can
fail the caller); and a parsed entry with every field missing gets the
defaults severity `O_INFO`, file `"<unknown>"`, line 0, empty message and
empty/zero timestamps, as evaluated on the concrete one-empty-object
batch text. -/
theorem deserialize_error_handling :
    (∀ request : PluginRequest, lookupReq request "log" = none →
      deserializeIntermediateLog request = []) ∧
    (∀ (request : PluginRequest) (s : String),
      lookupReq request "log" = some s → readJsonChildren s = none →
      deserializeIntermediateLog request = []) ∧
    (childToRecord [] = ⟨O_INFO, "<unknown>", 0, "", "", 0⟩) ∧
    (deserializeIntermediateLog
        [("log", String.mk ['[', Char.ofNat 123, Char.ofNat 125, ']'])]
      = [⟨O_INFO, "<unknown>", 0, "", "", 0⟩]) := by
  refine ⟨?_, ?_, by decide, by decide⟩
  · intro request h
    simp [deserializeIntermediateLog, h]
  · intro request s h hparse
    simp [deserializeIntermediateLog, h, hparse]

theorem deserialize_error_handling_witness :
    deserializeIntermediateLog [("status", "true")] = [] ∧
    deserializeIntermediateLog [("log", "nonsense")] = [] :=
  ⟨deserialize_error_handling.1 [("status", "true")] (by decide),
   deserialize_error_handling.2.1 [("log", "nonsense")] "nonsense"
     (by decide) (by decide)⟩

/-- C5: for every request not suppressed by the secondary check, `call`
dispatches by key precedence — `string`, then `snapshot`, then `init`,
then `status`, then `event`, then `action == "features"` — the first
matching key winning; the features branch returns a bitmask whose
LOGSTATUS bit equals `usesLogStatus` and whose LOGEVENT bit equals
`usesLogEvent`; and a request matching none of these returns the
non-fatal failure Status with the "unsupported call" message. -/
theorem loggerPluginCall_dispatch (secondaryOnly : Bool) (primary : String)
    (p : LoggerPluginImpl) (request : PluginRequest)
    (hs : suppressedSecondary secondaryOnly primary p request = false) :
    (hasKey request "string" = true →
      LoggerPluginCall secondaryOnly primary p request
        = (p.logStringResult (reqAt request "string"),
           [.logStringOp (reqAt request "string")])) ∧
    (hasKey request "string" = false → hasKey request "snapshot" = true →
      LoggerPluginCall secondaryOnly primary p request
        = (p.logSnapshotResult (reqAt request "snapshot"),
           [.logSnapshotOp (reqAt request "snapshot")])) ∧
    (hasKey request "string" = false → hasKey request "snapshot" = false →
      hasKey request "init" = true →
      LoggerPluginCall secondaryOnly primary p request
        = (⟨0, "OK"⟩,
           [.setProcessNameOp (reqAt request "init"),
            .initOp p.pluginName (deserializeIntermediateLog request)])) ∧
    (hasKey request "string" = false → hasKey request "snapshot" = false →
      hasKey request "init" = false → hasKey request "status" = true →
      LoggerPluginCall secondaryOnly primary p request
        = (p.logStatusResult (deserializeIntermediateLog request),
           [.logStatusOp (deserializeIntermediateLog request)])) ∧
    (hasKey request "string" = false → hasKey request "snapshot" = false →
      hasKey request "init" = false → hasKey request "status" = false →
      hasKey request "event" = true →
      LoggerPluginCall secondaryOnly primary p request
        = (p.logEventResult (reqAt request "event"),
           [.logEventOp (reqAt request "event")])) ∧
    (hasKey request "string" = false → hasKey request "snapshot" = false →
      hasKey request "init" = false → hasKey request "status" = false →
      hasKey request "event" = false →
      lookupReq request "action" = some "features" →
      LoggerPluginCall secondaryOnly primary p request
        = (⟨Int.ofNat (featuresVal p), "OK"⟩, [])) ∧
    ((featuresVal p).testBit 0 = p.usesLogStatus ∧
      (featuresVal p).testBit 1 = p.usesLogEvent) ∧
    (hasKey request "string" = false → hasKey request "snapshot" = false →
      hasKey request "init" = false → hasKey request "status" = false →
      hasKey request "event" = false →
      ¬ lookupReq request "action" = some "features" →
      LoggerPluginCall secondaryOnly primary p request
        = (⟨1, "Unsupported call to logger plugin"⟩, [])) := by
  refine ⟨?_, ?_, ?_, ?_, ?_, ?_, ?_, ?_⟩
  · intro h1
    simp [LoggerPluginCall, hs, h1]
  · intro h1 h2
    simp [LoggerPluginCall, hs, h1, h2]
  · intro h1 h2 h3
    simp [LoggerPluginCall, hs, h1, h2, h3]
  · intro h1 h2 h3 h4
    simp [LoggerPluginCall, hs, h1, h2, h3, h4]
  · intro h1 h2 h3 h4 h5
    simp [LoggerPluginCall, hs, h1, h2, h3, h4, h5]
  · intro h1 h2 h3 h4 h5 h6
    simp [LoggerPluginCall, hs, h1, h2, h3, h4, h5, h6]
  · cases hp : p.usesLogStatus <;> cases hq : p.usesLogEvent <;>
      simp [featuresVal, LOGGER_FEATURE_LOGSTATUS, LOGGER_FEATURE_LOGEVENT,
        hp, hq] <;> decide
  · intro h1 h2 h3 h4 h5 h6
    simp [LoggerPluginCall, hs, h1, h2, h3, h4, h5, h6]

theorem loggerPluginCall_dispatch_witness :
    LoggerPluginCall false "" samplePlugin [("action", "features")]
      = (⟨1, "OK"⟩, []) ∧
    (featuresVal samplePlugin).testBit 0 = true ∧
    (featuresVal samplePlugin).testBit 1 = false ∧
    LoggerPluginCall false "" samplePlugin [("bogus", "x")]
      = (⟨1, "Unsupported call to logger plugin"⟩, []) := by
  have h := loggerPluginCall_dispatch false "" samplePlugin
    [("action", "features")] (by decide)
  have h2 := loggerPluginCall_dispatch false "" samplePlugin
    [("bogus", "x")] (by decide)
  refine ⟨?_, ?_, ?_, ?_⟩
  · exact (h.2.2.2.2.2.1 (by decide) (by decide) (by decide) (by decide)
      (by decide) (by decide)).trans (by decide)
  · exact (h.2.2.2.2.2.2.1.1).trans (by decide)
  · exact (h.2.2.2.2.2.2.1.2).trans (by decide)
  · exact h2.2.2.2.2.2.2.2 (by decide) (by decide) (by decide) (by decide)
      (by decide) (by decide)

/-- C6: with the secondary-status-only option set and a non-primary
plugin, any request holding a `string` or `snapshot` key returns the
success Status carrying the disabled-for-secondary message with no
method invoked at all; requests without those keys (in particular `init`,
`status` and `event` requests) are not suppressed — the call behaves
exactly as with the option clear — and a `status` request on the same
non-primary plugin still invokes `logStatus`. -/
theorem secondary_suppression (primary : String) (p : LoggerPluginImpl)
    (request : PluginRequest) :
    (isPrimaryLogger p.pluginName primary = false →
      (hasKey request "string" = true ∨ hasKey request "snapshot" = true) →
      LoggerPluginCall true primary p request
        = (⟨0, "Logging disabled to secondary plugins"⟩, [])) ∧
    (hasKey request "string" = false → hasKey request "snapshot" = false →
      LoggerPluginCall true primary p request
        = LoggerPluginCall false primary p request) ∧
    (isPrimaryLogger p.pluginName primary = false →
      hasKey request "string" = false → hasKey request "snapshot" = false →
      hasKey request "init" = false → hasKey request "status" = true →
      LoggerPluginCall true primary p request
        = (p.logStatusResult (deserializeIntermediateLog request),
           [.logStatusOp (deserializeIntermediateLog request)])) := by
  refine ⟨?_, ?_, ?_⟩
  · intro hp hor
    rcases hor with h | h
    · simp [LoggerPluginCall, suppressedSecondary, hp, h]
    · simp [LoggerPluginCall, suppressedSecondary, hp, h]
  · intro h1 h2
    simp [LoggerPluginCall, suppressedSecondary, h1, h2]
  · intro hp h1 h2 h3 h4
    simp [LoggerPluginCall, suppressedSecondary, hp, h1, h2, h3, h4]

theorem secondary_suppression_witness :
    LoggerPluginCall true "primary" samplePlugin [("string", "m")]
      = (⟨0, "Logging disabled to secondary plugins"⟩, []) ∧
    LoggerPluginCall true "primary" samplePlugin [("status", "true")]
      = (⟨0, "OK"⟩, [PluginOp.logStatusOp []]) := by
  refine ⟨?_, ?_⟩
  · exact (secondary_suppression "primary" samplePlugin [("string", "m")]).1
      (by decide) (Or.inl (by decide))
  · exact ((secondary_suppression "primary" samplePlugin
      [("status", "true")]).2.2 (by decide) (by decide) (by decide)
      (by decide) (by decide)).trans (by decide)

theorem logQueryItemStep_fold (registryStatus : LogStringCall → Status)
    (receiver : String) (items : List String) :
    ∀ st : Status, ∀ acc : List LogStringCall,
      (items.foldl (logQueryItemStep registryStatus receiver) (st, acc)).2
        = acc ++ items.filterMap (fun json =>
            if endsWithNewline json then
              some ⟨String.mk json.data.dropLast, "event", receiver⟩
            else none) := by
  induction items with
  | nil => intro st acc; simp
  | cons j rest ih =>
    intro st acc
    by_cases hj : endsWithNewline j
    · simp only [List.foldl_cons, logQueryItemStep, hj, if_pos,
        List.filterMap_cons]
      rw [ih]
      simp [hj]
    · simp only [List.foldl_cons, logQueryItemStep, hj,
        List.filterMap_cons]
      rw [if_neg (by simp [hj])]
      rw [ih]
      simp [hj]

theorem logQueryItemStep_fold_none (registryStatus : LogStringCall → Status)
    (receiver : String) (items : List String)
    (h : ∀ j ∈ items, endsWithNewline j = false) :
    ∀ st : Status, ∀ acc : List LogStringCall,
      items.foldl (logQueryItemStep registryStatus receiver) (st, acc)
        = (st, acc) := by
  induction items with
  | nil => intro st acc; rfl
  | cons j rest ih =>
    intro st acc
    have hj := h j (List.mem_cons_self j rest)
    rw [List.foldl_cons]
    rw [show logQueryItemStep registryStatus receiver (st, acc) j
        = (st, acc) from by simp [logQueryItemStep, hj]]
    exact ih (fun z hz => h z (List.mem_cons_of_mem j hz)) st acc

/-- C10: with logging enabled and result-events mode on, an item produced
by the serializer is forwarded (as a `logString` with category `event`,
its trailing newline popped) exactly when it is non-empty and ends in a
newline; an item whose serialization does not end in a newline is
silently skipped, and when every item is skipped the returned Status is
still the serializer's success — the omission is not reported. -/
theorem logQueryLogItem_newline_filter
    (registryStatus : LogStringCall → Status)
    (eventsSer : Status × List String) (singleSer : Status × String)
    (receiver : String) (hok : eventsSer.1.code = 0) :
    ((logQueryLogItemModel registryStatus false true eventsSer singleSer
        receiver).2
      = eventsSer.2.filterMap (fun json =>
          if endsWithNewline json then
            some ⟨String.mk json.data.dropLast, "event", receiver⟩
          else none)) ∧
    ((∀ json ∈ eventsSer.2, endsWithNewline json = false) →
      logQueryLogItemModel registryStatus false true eventsSer singleSer
          receiver
        = (eventsSer.1, [])) := by
  constructor
  · simp only [logQueryLogItemModel, Bool.false_eq_true, if_false, if_true,
      hok, not_true_eq_false]
    simpa using logQueryItemStep_fold registryStatus receiver eventsSer.2
      eventsSer.1 []
  · intro hall
    simp only [logQueryLogItemModel, Bool.false_eq_true, if_false, if_true,
      hok, not_true_eq_false]
    exact logQueryItemStep_fold_none registryStatus receiver eventsSer.2
      hall eventsSer.1 []

theorem logQueryLogItem_newline_filter_witness :
    (logQueryLogItemModel (fun _ => ⟨0, "OK"⟩) false true
        (⟨0, "OK"⟩, ["a\n", "b"]) (⟨0, "OK"⟩, "x") "r").2
      = [⟨"a", "event", "r"⟩] ∧
    logQueryLogItemModel (fun _ => ⟨0, "OK"⟩) false true
        (⟨0, "OK"⟩, ["b"]) (⟨0, "OK"⟩, "x") "r"
      = (⟨0, "OK"⟩, []) := by
  constructor
  · exact ((logQueryLogItem_newline_filter (fun _ => ⟨0, "OK"⟩)
      (⟨0, "OK"⟩, ["a\n", "b"]) (⟨0, "OK"⟩, "x") "r" rfl).1).trans
      (by decide)
  · exact (logQueryLogItem_newline_filter (fun _ => ⟨0, "OK"⟩)
      (⟨0, "OK"⟩, ["b"]) (⟨0, "OK"⟩, "x") "r" rfl).2 (by decide)
